import Mathlib

/-!
Shallow embedding of the chain-state / UTXO database layer
(server/db.py of the Digital-Pandacoin Electrum server) together with
proofs about its recovery, flat-file and lookup algorithms.

Byte strings are modelled as `List Nat` (each element one byte, < 256
where numeric order matters).  The ordered key-value store is modelled
as an association list of (key, value) pairs; its iterator with a key
head filter is `List.filter` with `List.isPrefixOf`, and the claims
that depend on iteration order carry an explicit sortedness hypothesis
(the store contract guarantees ascending byte order).
-/

set_option linter.unusedVariables false

namespace PandaDB

/-- Big-endian value of a byte string, as in struct.unpack with a greater-than
format: fold left, most significant byte first. -/
def beVal (bs : List Nat) : Nat :=
  bs.foldl (fun a b => a * 256 + b) 0

/-- Little-endian value of a byte string, as in struct.unpack with a less-than
format: least significant byte first. -/
def leVal (bs : List Nat) : Nat :=
  bs.foldr (fun b a => a * 256 + b) 0

/-- The last k bytes of a byte string: the Python slice key[-k:] for a key of
length at least k. -/
def lastBytes (k : Nat) (bs : List Nat) : List Nat :=
  bs.drop (bs.length - k)

/-- Strict lexicographic order on byte strings: the comparison the key-value
store applies to keys (Python bytes comparison). -/
def bytesLt : List Nat → List Nat → Bool
  | [], [] => false
  | [], _ :: _ => true
  | _ :: _, [] => false
  | a :: as, b :: bs => a < b || (a == b && bytesLt as bs)

/-- struct.pack of an unsigned 16-bit little-endian integer. -/
def packLE16 (n : Nat) : List Nat :=
  [n % 256, n / 256 % 256]

/-- struct.pack of an unsigned 32-bit big-endian integer, as used by undo_key. -/
def packBE32 (n : Nat) : List Nat :=
  [n / 16777216 % 256, n / 65536 % 256, n / 256 % 256, n % 256]

/-- The key-value store: an association list of (key, value) byte strings.
The iterator over a key-head filter is modelled as `List.filter`; claims that
rely on ascending key order state it as a hypothesis. -/
abbrev Store := List (List Nat × List Nat)

/-- db.get: the value stored under a key, or none. -/
def storeGet (store : Store) (k : List Nat) : Option (List Nat) :=
  (store.find? (fun kv => kv.1 == k)).map (fun kv => kv.2)

/-- batch.put: replace the value under a key, or append the pair if absent. -/
def putKey (store : Store) (k v : List Nat) : Store :=
  if store.any (fun kv => kv.1 == k) then
    store.map (fun kv => if kv.1 == k then (k, v) else kv)
  else
    store ++ [(k, v)]

/-- batch.delete applied to a list of keys: every entry whose key is in the
list is removed. -/
def deleteKeys (store : Store) (ks : List (List Nat)) : Store :=
  store.filter (fun kv => !(ks.contains kv.1))

/-- The byte string b of the literal key named state. -/
def stateKey : List Nat := [115, 116, 97, 116, 101]

/-- The in-memory database state that clean_db reads and updates: the open
store plus the ChainState fields loaded by read_state, and the reorg limit
from the environment. -/
structure DBState where
  store : Store
  flush_count : Nat
  utxo_flush_count : Nat
  db_height : Int
  db_tx_count : Nat
  db_tip : List Nat
  wall_time : Nat
  first_sync : Bool
  db_version : Int
  genesis : List Nat
  reorg_limit : Nat
deriving Repr

/-- write_state serializes the full ChainState into the value stored under
stateKey.  The source serializes via repr of a dict; the exact bytes are
abstracted to a simple concatenation here, since no claim inspects the
serialized state bytes, only which keys remain in the store. -/
def encodeStateValue (s : DBState) : List Nat :=
  s.genesis ++ s.db_tip ++
    [(s.db_height + 1).toNat, s.db_tx_count, s.flush_count,
     s.utxo_flush_count, s.wall_time, if s.first_sync then 1 else 0,
     s.db_version.toNat]

/-- DB.excess_history_keys: scan every key under the history head byte H
(0x48 = 72) and collect those whose last two bytes, read as a big-endian
16-bit flush id, exceed the given utxo_flush_count. -/
def excess_history_keys (store : Store) (ufc : Nat) : List (List Nat) :=
  ((store.filter (fun kv => [72].isPrefixOf kv.1)).filter
      (fun kv => decide (ufc < beVal (lastBytes 2 kv.1)))).map (fun kv => kv.1)

/-- The scan loop of DB.stale_undo_keys: walk the undo entries in iterator
order, stop (break) at the first key whose big-endian 32-bit height suffix
exceeds the cutoff, collecting every key seen before that. -/
def staleGo (cutoff : Int) : List (List Nat × List Nat) → List (List Nat)
  | [] => []
  | kv :: rest =>
    if cutoff < (beVal (lastBytes 4 kv.1) : Int) then []
    else kv.1 :: staleGo cutoff rest

/-- DB.stale_undo_keys: iterate keys under the undo head byte U (0x55 = 85)
with cutoff = db_height - reorg_limit, breaking at the first key above the
cutoff. -/
def stale_undo_keys (store : Store) (db_height : Int) (reorg_limit : Nat) :
    List (List Nat) :=
  staleGo (db_height - reorg_limit) (store.filter (fun kv => [85].isPrefixOf kv.1))

/-- DB.clean_db: if flush_count > utxo_flush_count, first raise
utxo_flush_count to flush_count and then scan for excess history keys (the
scan therefore compares flush ids against the already-updated counter, as in
the source); independently collect stale undo keys; delete both sets and
rewrite the state record in one batch. -/
def clean_db (s : DBState) : DBState :=
  let s1 := if s.utxo_flush_count < s.flush_count then
      { s with utxo_flush_count := s.flush_count } else s
  let history_keys := if s.utxo_flush_count < s.flush_count then
      excess_history_keys s1.store s1.utxo_flush_count else []
  let undo_keys := stale_undo_keys s1.store s1.db_height s1.reorg_limit
  { s1 with
      store := putKey (deleteKeys s1.store (history_keys ++ undo_keys))
        stateKey (encodeStateValue s1) }

/-- DB.undo_key: the store key for undo information at a height. -/
def undo_key (height : Nat) : List Nat := 85 :: packBE32 height

lemma foldl_be (bs : List Nat) : ∀ a : Nat,
    bs.foldl (fun a b => a * 256 + b) a = a * 256 ^ bs.length + beVal bs := by
  induction bs with
  | nil => intro a; simp [beVal]
  | cons x bs ih =>
    intro a
    have h1 := ih (a * 256 + x)
    have h2 := ih x
    simp only [List.foldl_cons, List.length_cons, beVal, Nat.zero_mul,
      Nat.zero_add] at *
    rw [h1, h2]
    ring

lemma beVal_cons (x : Nat) (bs : List Nat) :
    beVal (x :: bs) = x * 256 ^ bs.length + beVal bs := by
  have := foldl_be bs x
  simp only [beVal, List.foldl_cons]
  simpa using this

lemma beVal_lt_pow (bs : List Nat) (h : ∀ x ∈ bs, x < 256) :
    beVal bs < 256 ^ bs.length := by
  induction bs with
  | nil => simp [beVal]
  | cons x bs ih =>
    have hx : x < 256 := h x (by simp)
    have hb : beVal bs < 256 ^ bs.length := ih (fun y hy => h y (by simp [hy]))
    rw [beVal_cons]
    calc x * 256 ^ bs.length + beVal bs
        < x * 256 ^ bs.length + 256 ^ bs.length := by omega
      _ = (x + 1) * 256 ^ bs.length := by ring
      _ ≤ 256 * 256 ^ bs.length := by
          exact Nat.mul_le_mul_right _ (by omega)
      _ = 256 ^ (x :: bs).length := by rw [List.length_cons]; ring

lemma bytesLt_beVal : ∀ (a b : List Nat), a.length = b.length →
    (∀ x ∈ a, x < 256) → bytesLt a b = true → beVal a < beVal b := by
  intro a
  induction a with
  | nil =>
    intro b hlen _ hlt
    cases b with
    | nil => simp [bytesLt] at hlt
    | cons y bs => simp at hlen
  | cons x as ih =>
    intro b hlen ha hlt
    cases b with
    | nil => simp [bytesLt] at hlt
    | cons y bs =>
      simp only [List.length_cons, Nat.succ.injEq] at hlen
      simp only [bytesLt, Bool.or_eq_true, Bool.and_eq_true, beq_iff_eq,
        decide_eq_true_eq] at hlt
      rw [beVal_cons, beVal_cons, ← hlen]
      rcases hlt with hxy | ⟨hxy, hrec⟩
      · have hA : beVal as < 256 ^ as.length :=
          beVal_lt_pow as (fun z hz => ha z (by simp [hz]))
        calc x * 256 ^ as.length + beVal as
            < (x + 1) * 256 ^ as.length := by
              have := hA; ring_nf; omega
          _ ≤ y * 256 ^ as.length := Nat.mul_le_mul_right _ (by omega)
          _ ≤ y * 256 ^ as.length + beVal bs := Nat.le_add_right _ _
      · subst hxy
        have := ih bs hlen (fun z hz => ha z (by simp [hz])) hrec
        omega

lemma singleton_isPfx {a : Nat} {k : List Nat} :
    [a].isPrefixOf k = true ↔ ∃ t, k = a :: t := by
  cases k with
  | nil => simp [List.isPrefixOf]
  | cons x t =>
    constructor
    · intro h
      simp only [List.isPrefixOf, Bool.and_eq_true, beq_iff_eq] at h
      exact ⟨t, by rw [h.1]⟩
    · rintro ⟨t2, ht⟩
      cases ht
      simp [List.isPrefixOf]

lemma mem_staleGo (cutoff : Int) : ∀ (l : List (List Nat × List Nat)) (k : List Nat),
    k ∈ staleGo cutoff l →
    ∃ kv, kv ∈ l ∧ kv.1 = k ∧ (beVal (lastBytes 4 k) : Int) ≤ cutoff := by
  intro l
  induction l with
  | nil => intro k hk; simp [staleGo] at hk
  | cons kv0 rest ih =>
    intro k hk
    by_cases hc : cutoff < (beVal (lastBytes 4 kv0.1) : Int)
    · simp [staleGo, hc] at hk
    · simp only [staleGo, if_neg hc, List.mem_cons] at hk
      rcases hk with rfl | hk
      · exact ⟨kv0, by simp, rfl, by omega⟩
      · obtain ⟨kv, h1, h2, h3⟩ := ih k hk
        exact ⟨kv, by simp [h1], h2, h3⟩

lemma staleGo_complete (cutoff : Int) :
    ∀ l : List (List Nat × List Nat),
    List.Pairwise (fun kv kv2 => beVal (lastBytes 4 kv.1) ≤ beVal (lastBytes 4 kv2.1)) l →
    ∀ kv ∈ l, (beVal (lastBytes 4 kv.1) : Int) ≤ cutoff → kv.1 ∈ staleGo cutoff l := by
  intro l
  induction l with
  | nil => intro _ kv hkv; simp at hkv
  | cons kv0 rest ih =>
    intro hpw kv hkv hle
    rcases List.pairwise_cons.mp hpw with ⟨hrel, hpw2⟩
    by_cases hc : cutoff < (beVal (lastBytes 4 kv0.1) : Int)
    · rcases List.mem_cons.mp hkv with rfl | hmem
      · omega
      · have := hrel kv hmem
        omega
    · simp only [staleGo, if_neg hc]
      rcases List.mem_cons.mp hkv with rfl | hmem
      · exact List.mem_cons_self _ _
      · exact List.mem_cons_of_mem _ (ih hpw2 kv hmem hle)

lemma undo_pairwise (store : Store)
    (hwf : ∀ kv ∈ store, [85].isPrefixOf kv.1 = true →
      kv.1.length = 5 ∧ ∀ x ∈ kv.1, x < 256)
    (hsort : List.Pairwise (fun kv kv2 => bytesLt kv.1 kv2.1 = true) store) :
    List.Pairwise (fun kv kv2 => beVal (lastBytes 4 kv.1) ≤ beVal (lastBytes 4 kv2.1))
      (store.filter (fun kv => [85].isPrefixOf kv.1)) := by
  have hpw := List.Pairwise.sublist
    (List.filter_sublist (p := fun kv => [85].isPrefixOf kv.1) store) hsort
  refine hpw.imp_of_mem ?_
  intro a b ha hb hlt
  have ha2 := List.mem_filter.mp ha
  have hb2 := List.mem_filter.mp hb
  obtain ⟨hal, haB⟩ := hwf a ha2.1 ha2.2
  obtain ⟨hbl, hbB⟩ := hwf b hb2.1 hb2.2
  obtain ⟨ta, hta⟩ := singleton_isPfx.mp ha2.2
  obtain ⟨tb, htb⟩ := singleton_isPfx.mp hb2.2
  have hta4 : ta.length = 4 := by rw [hta] at hal; simpa using hal
  have htb4 : tb.length = 4 := by rw [htb] at hbl; simpa using hbl
  have hlast_a : lastBytes 4 a.1 = ta := by
    rw [hta]; simp [lastBytes, hta4]
  have hlast_b : lastBytes 4 b.1 = tb := by
    rw [htb]; simp [lastBytes, htb4]
  rw [hlast_a, hlast_b]
  rw [hta, htb] at hlt
  simp only [bytesLt, Bool.or_eq_true, Bool.and_eq_true, beq_iff_eq,
    decide_eq_true_eq] at hlt
  rcases hlt with h85 | ⟨_, hrec⟩
  · omega
  · refine le_of_lt (bytesLt_beVal ta tb (by omega) ?_ hrec)
    intro x hx
    exact haB x (by rw [hta]; exact List.mem_cons_of_mem _ hx)

lemma mem_putKey {store : Store} {k v : List Nat} {kv : List Nat × List Nat}
    (h : kv ∈ putKey store k v) : kv ∈ store ∨ kv.1 = k := by
  unfold putKey at h
  split at h
  · obtain ⟨kv0, h0, hmap⟩ := List.mem_map.mp h
    by_cases hk : (kv0.1 == k) = true
    · right; rw [if_pos hk] at hmap; rw [← hmap]
    · left; rw [if_neg hk] at hmap; rw [← hmap]; exact h0
  · rcases List.mem_append.mp h with h | h
    · left; exact h
    · right
      have : kv = (k, v) := by simpa using h
      rw [this]

lemma mem_putKey_of_mem {store : Store} {k v : List Nat} {kv : List Nat × List Nat}
    (h : kv ∈ store) (hne : kv.1 ≠ k) : kv ∈ putKey store k v := by
  unfold putKey
  split
  · refine List.mem_map.mpr ⟨kv, h, ?_⟩
    rw [if_neg (by simpa using hne)]
  · exact List.mem_append_left _ h

lemma excess_history_keys_head {store : Store} {u : Nat} {k : List Nat}
    (h : k ∈ excess_history_keys store u) : ∃ t, k = 72 :: t := by
  unfold excess_history_keys at h
  obtain ⟨kv, hkv, hmap⟩ := List.mem_map.mp h
  have h1 := (List.mem_filter.mp (List.mem_filter.mp hkv).1).2
  rw [← hmap]
  exact singleton_isPfx.mp h1

lemma clean_db_store (s : DBState) :
    (clean_db s).store =
      putKey (deleteKeys s.store
          ((if s.utxo_flush_count < s.flush_count then
              excess_history_keys s.store s.flush_count else []) ++
            stale_undo_keys s.store s.db_height s.reorg_limit))
        stateKey
        (encodeStateValue (if s.utxo_flush_count < s.flush_count then
          { s with utxo_flush_count := s.flush_count } else s)) := by
  by_cases h : s.utxo_flush_count < s.flush_count <;> simp [clean_db, h]

/-- C3: assuming the store iterates keys in ascending byte order and every
undo key is the one-byte head U followed by a 4-byte big-endian height, after
clean_db no undo key with height at most db_height - reorg_limit remains,
and every undo key strictly above that cutoff is retained. -/
theorem c3_clean_db_undo_cutoff (s : DBState)
    (hwf : ∀ kv ∈ s.store, [85].isPrefixOf kv.1 = true →
      kv.1.length = 5 ∧ ∀ x ∈ kv.1, x < 256)
    (hsort : List.Pairwise (fun kv kv2 => bytesLt kv.1 kv2.1 = true) s.store) :
    (∀ kv ∈ (clean_db s).store, [85].isPrefixOf kv.1 = true →
        s.db_height - (s.reorg_limit : Int) < (beVal (lastBytes 4 kv.1) : Int)) ∧
    (∀ kv ∈ s.store, [85].isPrefixOf kv.1 = true →
        s.db_height - (s.reorg_limit : Int) < (beVal (lastBytes 4 kv.1) : Int) →
        kv ∈ (clean_db s).store) := by
  constructor
  · intro kv hmem h85
    rw [clean_db_store] at hmem
    rcases mem_putKey hmem with hmem | hst
    · have h2 := List.mem_filter.mp hmem
      by_contra hcut
      have hin : kv.1 ∈ stale_undo_keys s.store s.db_height s.reorg_limit := by
        unfold stale_undo_keys
        exact staleGo_complete _ _ (undo_pairwise s.store hwf hsort) kv
          (List.mem_filter.mpr ⟨h2.1, h85⟩) (by omega)
      have hnc := h2.2
      simp only [List.contains, Bool.not_eq_true', ← Bool.not_eq_true,
        List.elem_iff] at hnc
      exact hnc (List.mem_append_right _ hin)
    · obtain ⟨t, ht⟩ := singleton_isPfx.mp h85
      rw [hst] at ht
      simp [stateKey] at ht
  · intro kv hmem h85 hgt
    obtain ⟨t, ht⟩ := singleton_isPfx.mp h85
    rw [clean_db_store]
    apply mem_putKey_of_mem
    · refine List.mem_filter.mpr ⟨hmem, ?_⟩
      simp only [List.contains, Bool.not_eq_true', ← Bool.not_eq_true,
        List.elem_iff]
      intro hin
      rcases List.mem_append.mp hin with h1 | h2
      · by_cases hc : s.utxo_flush_count < s.flush_count
        · rw [if_pos hc] at h1
          obtain ⟨t2, ht2⟩ := excess_history_keys_head h1
          rw [ht] at ht2
          simp at ht2
        · rw [if_neg hc] at h1
          simp at h1
      · unfold stale_undo_keys at h2
        obtain ⟨kv2, _, hk2, hle⟩ := mem_staleGo _ _ _ h2
        omega
    · rw [ht]
      simp [stateKey]

/-- The concrete database state for the C3 witness: two undo entries, at
heights 5 and 9, with db_height 10 and reorg limit 3 (cutoff 7). -/
def c3WState : DBState :=
  { store := [(undo_key 5, [1]), (undo_key 9, [2])],
    flush_count := 1, utxo_flush_count := 1, db_height := 10,
    db_tx_count := 0, db_tip := [], wall_time := 0,
    first_sync := false, db_version := 3, genesis := [], reorg_limit := 3 }

/-- Witness for C3: the undo entry at height 9 is above the cutoff 7 and is
retained by clean_db on the concrete state. -/
theorem c3_clean_db_undo_cutoff_witness :
    (undo_key 9, ([2] : List Nat)) ∈ (clean_db c3WState).store :=
  (c3_clean_db_undo_cutoff c3WState (by decide) (by decide)).2
    (undo_key 9, [2]) (by decide) (by decide) (by decide)

/-- The address fingerprint used in the C1 scenario: 21 zero bytes. -/
def c1Addr : List Nat := List.replicate 21 0

/-- The history key of the C1 scenario tagged with flush-batch id 1. -/
def c1KeyBatch1 : List Nat := 72 :: (c1Addr ++ [0, 1])

/-- The history key of the C1 scenario tagged with flush-batch id 2. -/
def c1KeyBatch2 : List Nat := 72 :: (c1Addr ++ [0, 2])

/-- The C1 scenario database state: flush_count = 2, utxo_flush_count = 1
(unclean shutdown after the second history flush, first UTXO flush only), a
history key for each of the two flush batches, no undo keys. -/
def c1State : DBState :=
  { store := [(c1KeyBatch1, [1, 0, 0, 0]), (c1KeyBatch2, [2, 0, 0, 0])],
    flush_count := 2, utxo_flush_count := 1, db_height := 0,
    db_tx_count := 1, db_tip := List.replicate 32 0, wall_time := 0,
    first_sync := false, db_version := 3, genesis := List.replicate 32 0,
    reorg_limit := 100 }

/-- C1: the claim says recovery deletes exactly the history keys whose
flush-batch id exceeds the pre-recovery utxo_flush_count; in the scenario
flush_count = 2, utxo_flush_count = 1 every key tagged batch 2 should be
deleted.  The code raises utxo_flush_count to flush_count before scanning, so
the scan compares flush ids against the new value 2 and the batch-2 key
survives recovery, although the scan run at the pre-recovery value 1 does
select it (showing the scan itself agrees with the claim and only the update
order diverges).  utxo_flush_count does end at flush_count. -/
theorem c1_clean_db_keeps_batch2_key :
    ((clean_db c1State).store.map (fun kv => kv.1)).contains c1KeyBatch2 = true ∧
    ((clean_db c1State).store.map (fun kv => kv.1)).contains c1KeyBatch1 = true ∧
    excess_history_keys c1State.store 1 = [c1KeyBatch2] ∧
    (clean_db c1State).utxo_flush_count = 2 := by
  refine ⟨by decide, by decide, by decide, by decide⟩

/-- Exceptions that the embedded operations can raise.  dbError is
DB.DBError (general corruption), missingUTXO is DB.MissingUTXOError; the
others model the built-in Python exceptions that the code can let escape:
KeyError from a dict subscript, TypeError from an unordered comparison,
AssertionError from a failed assert, FileNotFoundError from open_file
without create, and struct.error from unpack on a wrongly sized buffer. -/
inductive PyExc where
  | dbError (msg : String)
  | missingUTXO
  | keyError (k : String)
  | typeError
  | assertionError
  | fileNotFound
  | structError
  | valueError
deriving DecidableEq, Repr

/-- A parsed Python literal value, as far as the persisted state record needs:
the values ast.literal_eval can produce for the fields written by
write_state. -/
inductive PyVal where
  | int (n : Int)
  | bool (b : Bool)
  | bytes (bs : List Nat)
  | str (s : String)
deriving DecidableEq, Repr

/-- Numeric view of a Python value: bool is a subtype of int in Python, so
True compares equal to 1 and False to 0. -/
def PyVal.toNum : PyVal → Option Int
  | .int n => some n
  | .bool b => some (if b then 1 else 0)
  | _ => none

/-- Python equality on the modelled values: numeric values compare by value
across int and bool, bytes and str compare within their own type, and any
other cross-type comparison is unequal. -/
def pyEq (a b : PyVal) : Bool :=
  match a.toNum, b.toNum with
  | some x, some y => x == y
  | _, _ =>
    match a, b with
    | .bytes x, .bytes y => x == y
    | .str x, .str y => x == y
    | _, _ => false

/-- Python strict less-than on the modelled values: defined within numbers,
bytes and str; any other combination raises TypeError. -/
def pyLt (a b : PyVal) : Except PyExc Bool :=
  match a.toNum, b.toNum with
  | some x, some y => .ok (decide (x < y))
  | _, _ =>
    match a, b with
    | .bytes x, .bytes y => .ok (bytesLt x y)
    | .str x, .str y => .ok (decide (x < y))
    | _, _ => .error .typeError

/-- A dict subscript state[k]: the first binding of the key, or KeyError. -/
def getField (d : List (String × PyVal)) (k : String) : Except PyExc PyVal :=
  match d.find? (fun p => p.1 == k) with
  | some p => .ok p.2
  | none => .error (.keyError k)

/-- DB.DB_VERSIONS. -/
def DB_VERSIONS : List Int := [3]

/-- The attributes read_state assigns on success (genesis is only compared,
never stored). -/
structure ReadStateResult where
  db_version : PyVal
  db_height : PyVal
  db_tx_count : PyVal
  db_tip : PyVal
  flush_count : PyVal
  utxo_flush_count : PyVal
  wall_time : PyVal
  first_sync : PyVal
deriving DecidableEq, Repr

/-- DB.read_state on a non-new database.  The input is the state record
after db.get and ast.literal_eval: none stands for every falsy-or-non-dict
outcome (key absent, empty bytes, or a literal that is not a dict), which the
source folds into one DBError; some d is the parsed dict.  Field reads follow
the source order; a missing field raises KeyError from the subscript.  On a
genesis mismatch the source formats its error message with the subscript
state[genesis_hash], so that subscript is evaluated (and can itself raise
KeyError) before the DBError is raised.  The final check is
flush_count < utxo_flush_count using the Python comparison. -/
def read_state (genesisHash : PyVal) (st : Option (List (String × PyVal))) :
    Except PyExc ReadStateResult := do
  match st with
  | none => .error (.dbError "failed reading state from DB")
  | some d =>
    let dv ← getField d "db_version"
    if !(DB_VERSIONS.any (fun v => pyEq dv (.int v))) then
      .error (.dbError "your DB version is not handled by this software")
    else
    let gen ← getField d "genesis"
    if !(pyEq gen genesisHash) then do
      let _ ← getField d "genesis_hash"
      .error (.dbError "DB genesis hash does not match coin")
    else
    let height ← getField d "height"
    let txCount ← getField d "tx_count"
    let tip ← getField d "tip"
    let fc ← getField d "flush_count"
    let ufc ← getField d "utxo_flush_count"
    let wt ← getField d "wall_time"
    let fs ← getField d "first_sync"
    let lt ← pyLt fc ufc
    if lt then
      .error (.dbError "DB corrupt: flush_count < utxo_flush_count")
    else
      .ok { db_version := dv, db_height := height, db_tx_count := txCount,
            db_tip := tip, flush_count := fc, utxo_flush_count := ufc,
            wall_time := wt, first_sync := fs }

/-- C4 counterexample: a stored state record that passes the version and
genesis checks but has no height field makes read_state raise KeyError, a
different exception than the claimed DBError, refuting the claim that missing
fields are reported as the corruption error. -/
theorem c4_read_state_missing_field_keyerror :
    read_state (PyVal.bytes [9])
      (some [("db_version", .int 3), ("genesis", .bytes [9])]) =
      .error (.keyError "height") := by rfl

/-- C4 amended: read_state raises DBError when the record is absent, falsy or
not a dict, when db_version is unrecognized, when the genesis field
mismatches the configured hash (provided the record also binds genesis_hash,
which the error formatter subscripts first), and when
flush_count < utxo_flush_count; a missing field instead surfaces as the
KeyError of its subscript, and when all nine fields are present with a
recognized version, matching genesis and flush_count not below
utxo_flush_count, it returns all nine fields. -/
theorem c4_read_state_error_taxonomy (g : PyVal) (d : List (String × PyVal)) :
    (read_state g none = .error (.dbError "failed reading state from DB")) ∧
    (∀ e, getField d "db_version" = .error e →
      read_state g (some d) = .error e) ∧
    (∀ dv, getField d "db_version" = .ok dv →
      (DB_VERSIONS.any (fun v => pyEq dv (.int v))) = false →
      read_state g (some d) =
        .error (.dbError "your DB version is not handled by this software")) ∧
    (∀ dv gen gh, getField d "db_version" = .ok dv →
      (DB_VERSIONS.any (fun v => pyEq dv (.int v))) = true →
      getField d "genesis" = .ok gen → pyEq gen g = false →
      getField d "genesis_hash" = .ok gh →
      read_state g (some d) =
        .error (.dbError "DB genesis hash does not match coin")) ∧
    (∀ dv gen e, getField d "db_version" = .ok dv →
      (DB_VERSIONS.any (fun v => pyEq dv (.int v))) = true →
      getField d "genesis" = .ok gen → pyEq gen g = false →
      getField d "genesis_hash" = .error e →
      read_state g (some d) = .error e) ∧
    (∀ dv gen e, getField d "db_version" = .ok dv →
      (DB_VERSIONS.any (fun v => pyEq dv (.int v))) = true →
      getField d "genesis" = .ok gen → pyEq gen g = true →
      getField d "height" = .error e →
      read_state g (some d) = .error e) ∧
    (∀ dv gen hht txc tip fc ufc wt fs,
      getField d "db_version" = .ok dv →
      (DB_VERSIONS.any (fun v => pyEq dv (.int v))) = true →
      getField d "genesis" = .ok gen → pyEq gen g = true →
      getField d "height" = .ok hht → getField d "tx_count" = .ok txc →
      getField d "tip" = .ok tip → getField d "flush_count" = .ok fc →
      getField d "utxo_flush_count" = .ok ufc →
      getField d "wall_time" = .ok wt → getField d "first_sync" = .ok fs →
      (pyLt fc ufc = .ok true →
        read_state g (some d) =
          .error (.dbError "DB corrupt: flush_count < utxo_flush_count")) ∧
      (pyLt fc ufc = .ok false →
        read_state g (some d) = .ok ⟨dv, hht, txc, tip, fc, ufc, wt, fs⟩)) := by
  refine ⟨rfl, ?_, ?_, ?_, ?_, ?_, ?_⟩
  · intro e h
    simp [read_state, h, Except.instMonad, Except.bind]
  · intro dv h h2
    simp only [List.any_eq_false] at h2
    simp [read_state, h, h2, Except.instMonad, Except.bind]
    intro x hx hpy
    exact absurd hpy (h2 x hx)
  · intro dv gen gh h h2 h3 h4 h5
    simp only [List.any_eq_true] at h2
    simp [read_state, h, h2, h3, h4, h5, Except.instMonad, Except.bind]
  · intro dv gen e h h2 h3 h4 h5
    simp only [List.any_eq_true] at h2
    simp [read_state, h, h2, h3, h4, h5, Except.instMonad, Except.bind]
  · intro dv gen e h h2 h3 h4 h5
    simp only [List.any_eq_true] at h2
    simp [read_state, h, h2, h3, h4, h5, Except.instMonad, Except.bind]
  · intro dv gen hht txc tip fc ufc wt fs h h2 h3 h4 hh htc htip hfc hufc hwt hfs
    simp only [List.any_eq_true] at h2
    constructor
    · intro hlt
      simp [read_state, h, h2, h3, h4, hh, htc, htip, hfc, hufc, hwt, hfs, hlt,
        Except.instMonad, Except.bind]
    · intro hlt
      simp [read_state, h, h2, h3, h4, hh, htc, htip, hfc, hufc, hwt, hfs, hlt,
        Except.instMonad, Except.bind]

/-- Overwrite the bytes of a file at a seek position: Python seek followed by
write, with the gap zero-filled when the seek position is past the end of the
file. -/
def writeAt (file : List Nat) (pos : Nat) (data : List Nat) : List Nat :=
  (file.take pos ++ List.replicate (pos - file.length) 0) ++ data ++
    file.drop (pos + data.length)

/-- The flat append-only files owned by DB: the headers file, the tx-count
file, and the sharded tx-hash files (hashesNNNN), the latter as a map from
shard number to contents, none when the shard file does not exist yet. -/
structure FsState where
  headers_file : List Nat
  txcount_file : List Nat
  shards : Nat → Option (List Nat)

/-- The headers-file write performed by DB.fs_update: seek to
(fs_height + 1) * HEADER_LEN and write the concatenated headers. -/
def fs_update_headers (L : Nat) (file : List Nat) (fs_height : Int)
    (headers : List (List Nat)) : List Nat :=
  writeAt file (((fs_height + 1) * L).toNat) headers.flatten

/-- Serialization of the in-memory tx_counts array slice written by
fs_update: array of native 4-byte unsigned integers, little-endian. -/
def encodeUint32s : List Nat → List Nat
  | [] => []
  | n :: rest =>
    [n % 256, n / 256 % 256, n / 65536 % 256, n / 16777216 % 256] ++
      encodeUint32s rest

/-- The shard-write loop of fs_update: starting at global byte file_pos,
write the data across the 32-byte-record shard files of capacity ssize,
opening each shard with create so a missing shard starts empty.  The loop is
bounded by a fuel argument (data.length at the call site); each iteration
writes at least one byte when ssize > 0, exactly as the source loop. -/
def writeShards (shards : Nat → Option (List Nat)) (ssize : Nat)
    (file_pos : Nat) (data : List Nat) : Nat → (Nat → Option (List Nat))
  | 0 => shards
  | fuel + 1 =>
    if data = [] then shards
    else
      let file_num := file_pos / ssize
      let offset := file_pos % ssize
      let size := min data.length (ssize - offset)
      let f2 := writeAt ((shards file_num).getD []) offset (data.take size)
      writeShards (fun n => if n = file_num then some f2 else shards n) ssize
        (file_pos + size) (data.drop size) fuel

/-- DB.fs_update: write headers, the tx_count array slice and the block tx
hashes to the flat files.  The headers argument plays both roles of the
source attribute self.headers and the parameter written to disk, and
block_tx_hashes both of self.tx_hashes and the hashes parameter, which is how
the external block processor invokes it; tx_counts is the in-memory
self.tx_counts array after the new blocks.  The four source asserts are
modelled as errors. -/
def fs_update (L ssize : Nat) (st : FsState) (fs_height : Int)
    (headers : List (List Nat)) (tx_counts : List Nat)
    (block_tx_hashes : List (List (List Nat))) : Except PyExc FsState :=
  let blocks_done := headers.length
  let new_height := fs_height + blocks_done
  -- tx_counts[fs_height]: in range whenever the length assert below holds
  let prior_tx_count : Int :=
    if 0 ≤ fs_height then tx_counts.getD fs_height.toNat 0 else 0
  let cur_tx_count : Int := (tx_counts.getLastD 0 : Nat)
  let txs_done := cur_tx_count - prior_tx_count
  if (block_tx_hashes.length : Int) ≠ blocks_done then .error .assertionError
  else if (tx_counts.length : Int) ≠ new_height + 1 then .error .assertionError
  else
    let headers_file := fs_update_headers L st.headers_file fs_height headers
    let txcount_file := writeAt st.txcount_file ((fs_height + 1) * 4).toNat
      (encodeUint32s (tx_counts.drop (fs_height + 1).toNat))
    let hashes := block_tx_hashes.flatten.flatten
    if hashes.length % 32 ≠ 0 then .error .assertionError
    else if (hashes.length / 32 : Int) ≠ txs_done then .error .assertionError
    else
      .ok { headers_file := headers_file, txcount_file := txcount_file,
            shards := writeShards st.shards ssize (prior_tx_count * 32).toNat
              hashes hashes.length }

/-- A single fixed-length header record of the headers file. -/
def headerRecord (file : List Nat) (L h : Nat) : List Nat :=
  (file.drop (h * L)).take L

/-- DB.read_headers: disk_count = min of count and db_height + 1 - start;
a DBError when start or count is negative or disk_count falls short of
count; otherwise seek to start * header_len and read disk_count *
header_len bytes (empty when disk_count is zero). -/
def read_headers (file : List Nat) (L : Nat) (db_height : Int)
    (start count : Int) : Except PyExc (List Nat) :=
  let disk_count := min count (db_height + 1 - start)
  if start < 0 ∨ count < 0 ∨ disk_count ≠ count then
    .error (.dbError "headers starting at start not on disk")
  else if disk_count ≠ 0 then
    .ok ((file.drop (start * L).toNat).take (disk_count * L).toNat)
  else
    .ok []

lemma slice_flatten (file : List Nat) (L : Nat) : ∀ (cnt s : Nat),
    (file.drop (s * L)).take (cnt * L) =
      ((List.range cnt).map (fun i => headerRecord file L (s + i))).flatten := by
  intro cnt
  induction cnt with
  | zero => intro s; simp
  | succ n ih =>
    intro s
    have h1 : (n + 1) * L = L + n * L := by ring
    rw [h1, List.take_add]
    have h2 : (file.drop (s * L)).drop L = file.drop ((s + 1) * L) := by
      rw [List.drop_drop]
      congr 1
      ring
    rw [h2, ih (s + 1), List.range_succ_eq_map]
    simp only [List.map_cons, List.map_map, List.flatten_cons]
    have hfun : ((fun i => headerRecord file L (s + i)) ∘ Nat.succ) =
        (fun i => headerRecord file L (s + 1 + i)) := by
      funext i
      simp only [Function.comp_apply]
      congr 1
      omega
    rw [hfun]
    rfl

lemma read_headers_ok (file : List Nat) (L : Nat) (db_height : Int) (a c : Nat)
    (hle : (c : Int) ≤ db_height + 1 - a) :
    read_headers file L db_height a c =
      .ok ((file.drop (a * L)).take (c * L)) := by
  have hmin : min (c : Int) (db_height + 1 - a) = (c : Int) := min_eq_left hle
  simp only [read_headers]
  rw [hmin]
  rw [if_neg (by
    push_neg
    exact ⟨Int.natCast_nonneg a, Int.natCast_nonneg c, rfl⟩)]
  by_cases hz : (c : Int) ≠ 0
  · rw [if_pos hz]
    have h1 : ((a : Int) * L).toNat = a * L := by
      rw [← Nat.cast_mul, Int.toNat_natCast]
    have h2 : ((c : Int) * L).toNat = c * L := by
      rw [← Nat.cast_mul, Int.toNat_natCast]
    rw [h1, h2]
  · push_neg at hz
    have hc0 : c = 0 := by exact_mod_cast hz
    subst hc0
    rw [if_neg (by simp)]
    simp

/-- C6: read_headers raises the range error exactly when start < 0, count < 0
or the requested range extends past the on-disk height, and otherwise returns
exactly count fixed-length header records concatenated in height order, for a
headers file long enough to hold db_height + 1 records. -/
theorem c6_read_headers_range_error (file : List Nat) (L : Nat)
    (db_height start count : Int)
    (hfile : ((db_height + 1) * L).toNat ≤ file.length) :
    ((∃ e, read_headers file L db_height start count = .error e) ↔
      (start < 0 ∨ count < 0 ∨ db_height + 1 < start + count)) ∧
    (∀ res, read_headers file L db_height start count = .ok res →
      res = ((List.range count.toNat).map
          (fun i => headerRecord file L (start.toNat + i))).flatten ∧
      res.length = count.toNat * L) := by
  by_cases hs : start < 0
  · constructor
    · exact ⟨fun _ => Or.inl hs, fun _ =>
        ⟨.dbError "headers starting at start not on disk", by
          simp [read_headers, hs]⟩⟩
    · intro res hres
      simp [read_headers, hs] at hres
  · by_cases hcnt : count < 0
    · constructor
      · exact ⟨fun _ => Or.inr (Or.inl hcnt), fun _ =>
          ⟨.dbError "headers starting at start not on disk", by
            simp [read_headers, hs, hcnt]⟩⟩
      · intro res hres
        simp [read_headers, hs, hcnt] at hres
    · push_neg at hs hcnt
      by_cases hle : count ≤ db_height + 1 - start
      · obtain ⟨a, rfl⟩ : ∃ a : Nat, start = (a : Int) :=
          ⟨start.toNat, (Int.toNat_of_nonneg hs).symm⟩
        obtain ⟨c, rfl⟩ : ∃ c : Nat, count = (c : Int) :=
          ⟨count.toNat, (Int.toNat_of_nonneg hcnt).symm⟩
        have heval := read_headers_ok file L db_height a c hle
        constructor
        · constructor
          · rintro ⟨e, he⟩
            rw [heval] at he
            exact Except.noConfusion he
          · intro h
            rcases h with h | h | h <;> omega
        · intro res hres
          rw [heval] at hres
          injection hres with hres2
          constructor
          · rw [← hres2, Int.toNat_natCast, Int.toNat_natCast]
            exact slice_flatten file L c a
          · have hD : a + c ≤ (db_height + 1).toNat := by omega
            have h5 : ((db_height + 1) * L).toNat = (db_height + 1).toNat * L := by
              obtain ⟨D, hDq⟩ : ∃ D : Nat, db_height + 1 = (D : Int) :=
                ⟨(db_height + 1).toNat, by omega⟩
              rw [hDq, ← Nat.cast_mul, Int.toNat_natCast, Int.toNat_natCast]
            have h7 : (a + c) * L ≤ (db_height + 1).toNat * L :=
              Nat.mul_le_mul_right _ hD
            have h8 : a * L + c * L ≤ file.length := by
              rw [Nat.add_mul] at h7
              omega
            rw [← hres2, Int.toNat_natCast]
            simp only [List.length_take, List.length_drop]
            omega
      · push_neg at hle
        have hmin : min count (db_height + 1 - start) = db_height + 1 - start :=
          min_eq_right (by omega)
        constructor
        · constructor
          · intro _
            right; right
            omega
          · intro _
            refine ⟨.dbError "headers starting at start not on disk", ?_⟩
            simp only [read_headers]
            rw [hmin, if_pos (by omega)]
        · intro res hres
          simp only [read_headers] at hres
          rw [hmin, if_pos (by omega)] at hres
          exact Except.noConfusion hres

/-- Witness for C6: a two-record headers file with record length 2 and
db_height 1; reading both records succeeds and returns them in height
order. -/
theorem c6_read_headers_range_error_witness :
    ([1, 2, 3, 4] : List Nat) = ((List.range (2 : Int).toNat).map
        (fun i => headerRecord [1, 2, 3, 4] 2 ((0 : Int).toNat + i))).flatten ∧
    ([1, 2, 3, 4] : List Nat).length = (2 : Int).toNat * 2 :=
  (c6_read_headers_range_error [1, 2, 3, 4] 2 1 0 2 (by decide)).2
    [1, 2, 3, 4] (by rfl)

/-- The headers-file evolution across a sequence of fs_update calls starting
at running height fh: each call performs the headers-file write of fs_update
for one batch of blocks and advances the height by the batch size. -/
def runHeaderUpdates (L : Nat) :
    List Nat → Int → List (List (List Nat)) → List Nat
  | file, _, [] => file
  | file, fh, b :: bs =>
    runHeaderUpdates L (fs_update_headers L file fh b) (fh + b.length) bs

lemma writeAt_append (file data : List Nat) :
    writeAt file file.length data = file ++ data := by
  unfold writeAt
  rw [List.take_length, Nat.sub_self, List.replicate_zero,
    List.drop_of_length_le (Nat.le_add_right _ _)]
  simp

lemma flatten_len_const (L : Nat) : ∀ b : List (List Nat),
    (∀ hd ∈ b, hd.length = L) → b.flatten.length = b.length * L := by
  intro b
  induction b with
  | nil => intro _; simp
  | cons x xs ih =>
    intro hwf
    simp only [List.flatten_cons, List.length_append, List.length_cons]
    rw [hwf x (by simp), ih (fun hd hm => hwf hd (by simp [hm]))]
    ring

lemma runHeaderUpdates_spec (L : Nat) :
    ∀ (batches : List (List (List Nat))) (file : List Nat) (n : Nat),
    file.length = n * L →
    (∀ b ∈ batches, ∀ hd ∈ b, hd.length = L) →
    runHeaderUpdates L file ((n : Int) - 1) batches =
      file ++ (batches.map (fun b => b.flatten)).flatten := by
  intro batches
  induction batches with
  | nil => intro file n _ _; simp [runHeaderUpdates]
  | cons b bs ih =>
    intro file n hlen hwf
    simp only [runHeaderUpdates]
    have hcast : (((n : Int) - 1 + 1) * L).toNat = n * L := by
      have h0 : ((n : Int) - 1 + 1) = (n : Int) := by ring
      rw [h0, ← Nat.cast_mul, Int.toNat_natCast]
    have hhead : fs_update_headers L file ((n : Int) - 1) b = file ++ b.flatten := by
      unfold fs_update_headers
      rw [hcast, ← hlen, writeAt_append]
    have hlen2 : (file ++ b.flatten).length = (n + b.length) * L := by
      simp only [List.length_append, hlen]
      rw [flatten_len_const L b (hwf b (by simp))]
      ring
    have hheight : ((n : Int) - 1) + (b.length : Int) =
        ((n + b.length : Nat) : Int) - 1 := by
      push_cast
      ring
    rw [hhead, hheight,
      ih (file ++ b.flatten) (n + b.length) hlen2
        (fun b2 hm hd hh => hwf b2 (by simp [hm]) hd hh)]
    simp [List.flatten_cons, List.append_assoc]

lemma flatten_map_flatten (batches : List (List (List Nat))) :
    (batches.map (fun b => b.flatten)).flatten = batches.flatten.flatten := by
  induction batches with
  | nil => rfl
  | cons b bs ih => simp [List.flatten_cons, List.flatten_append, ih]

lemma flatten_get (L : Nat) : ∀ (all : List (List Nat)) (h : Nat),
    (∀ hd ∈ all, hd.length = L) → h < all.length →
    (all.flatten.drop (h * L)).take L = all.getD h [] := by
  intro all
  induction all with
  | nil => intro h _ hh; simp at hh
  | cons x xs ih =>
    intro h hwf hh
    cases h with
    | zero =>
      simp only [Nat.zero_mul, List.drop_zero, List.flatten_cons]
      have hx : x.length = L := hwf x (by simp)
      rw [← hx, List.take_left]
      rfl
    | succ n =>
      have hx : x.length = L := hwf x (by simp)
      simp only [List.flatten_cons]
      have hsplit : (n + 1) * L = x.length + n * L := by
        rw [hx]
        ring
      rw [hsplit, List.drop_append, List.getD_cons_succ]
      exact ih n (fun hd hm => hwf hd (by simp [hm])) (by simpa using hh)

/-- C2: the headers-file component of fs_update is exactly the write of the
concatenated batch at offset (fs_height + 1) * header_length, and after any
sequence of contiguous fs_update header writes starting from an empty file at
height -1, read_headers(h, 1) returns byte-identically the header that was
appended for height h, for every h up to the resulting db_height. -/
theorem c2_headers_offset_roundtrip (L : Nat) (hL : 0 < L)
    (batches : List (List (List Nat)))
    (hwf : ∀ b ∈ batches, ∀ hd ∈ b, hd.length = L) :
    (∀ (ssize : Nat) (st st2 : FsState) (fh : Int) (hdrs : List (List Nat))
        (tc : List Nat) (bth : List (List (List Nat))),
      fs_update L ssize st fh hdrs tc bth = .ok st2 →
      st2.headers_file = fs_update_headers L st.headers_file fh hdrs) ∧
    (∀ h : Nat, h < batches.flatten.length →
      read_headers (runHeaderUpdates L [] (-1) batches) L
          ((batches.flatten.length : Int) - 1) (h : Int) 1 =
        .ok (batches.flatten.getD h [])) := by
  constructor
  · intro ssize st st2 fh hdrs tc bth hok
    simp only [fs_update] at hok
    repeat' split at hok
    all_goals try exact Except.noConfusion hok
    all_goals injection hok with hrec
    all_goals rw [← hrec]
  · intro h hh
    have hzero : ((-1 : Int)) = ((0 : Nat) : Int) - 1 := by norm_num
    have hfile : runHeaderUpdates L [] (-1) batches =
        batches.flatten.flatten := by
      rw [hzero, runHeaderUpdates_spec L batches [] 0 (by simp) hwf]
      rw [flatten_map_flatten]
      rfl
    have hle : ((1 : Nat) : Int) ≤
        ((batches.flatten.length : Int) - 1) + 1 - (h : Int) := by
      push_cast
      omega
    have heval := read_headers_ok (runHeaderUpdates L [] (-1) batches) L
      ((batches.flatten.length : Int) - 1) h 1 hle
    simp only [Nat.cast_one] at heval
    rw [heval, hfile]
    congr 1
    rw [Nat.one_mul]
    exact flatten_get L batches.flatten h
      (fun hd hm => by
        obtain ⟨b, hb, hhd⟩ := List.mem_flatten.mp hm
        exact hwf b hb hd hhd) hh

/-- The batches of headers used by the C2 witness: a first fs_update call
appending one header, then a second call appending two more. -/
def c2WBatches : List (List (List Nat)) := [[[1, 2]], [[3, 4], [5, 6]]]

/-- Witness for C2: on the concrete two-call run, reading height 1 returns
the header appended for height 1. -/
theorem c2_headers_offset_roundtrip_witness :
    read_headers (runHeaderUpdates 2 [] (-1) c2WBatches) 2
        ((c2WBatches.flatten.length : Int) - 1) ((1 : Nat) : Int) 1 =
      .ok (c2WBatches.flatten.getD 1 []) :=
  (c2_headers_offset_roundtrip 2 (by decide) c2WBatches (by decide)).2 1
    (by decide)

/-- The stdlib bisect_right applied to the sorted in-memory tx_counts array,
modelled by its documented contract on sorted input: the insertion point to
the right of existing entries, that is the length of the maximal leading run
of elements at most x (equivalently the index of the first element greater
than x). -/
def bisect_right (a : List Nat) (x : Nat) : Nat :=
  (a.takeWhile (fun c => decide (c ≤ x))).length

/-- DB.fs_tx_hash: bisect tx_counts for the height; past the on-disk height
return (None, tx_height) without touching the files; otherwise read 32 bytes
of the tx-hash shard reached from file_pos = tx_num * 32 by dividing by the
shard byte capacity; a missing shard file raises FileNotFoundError from
open_file. -/
def fs_tx_hash (tx_counts : List Nat) (db_height : Int)
    (shards : Nat → Option (List Nat)) (ssize : Nat) (tx_num : Nat) :
    Except PyExc (Option (List Nat) × Nat) :=
  let tx_height := bisect_right tx_counts tx_num
  if (tx_height : Int) > db_height then .ok (none, tx_height)
  else
    match shards (tx_num * 32 / ssize) with
    | none => .error .fileNotFound
    | some f => .ok (some ((f.drop (tx_num * 32 % ssize)).take 32), tx_height)

lemma bisect_cons (y : Nat) (ys : List Nat) (x : Nat) :
    bisect_right (y :: ys) x =
      if y ≤ x then bisect_right ys x + 1 else 0 := by
  by_cases h : y ≤ x
  · simp [bisect_right, List.takeWhile_cons, h]
  · simp [bisect_right, List.takeWhile_cons, h]

lemma bisect_prev (x : Nat) : ∀ (a : List Nat) (i : Nat),
    i < bisect_right a x → a.getD i 0 ≤ x := by
  intro a
  induction a with
  | nil => intro i hi; simp [bisect_right] at hi
  | cons y ys ih =>
    intro i hi
    rw [bisect_cons] at hi
    by_cases hp : y ≤ x
    · rw [if_pos hp] at hi
      cases i with
      | zero => simpa using hp
      | succ n =>
        rw [List.getD_cons_succ]
        exact ih n (by omega)
    · rw [if_neg hp] at hi
      omega

lemma bisect_here (x : Nat) : ∀ a : List Nat, bisect_right a x < a.length →
    x < a.getD (bisect_right a x) 0 := by
  intro a
  induction a with
  | nil => intro h; simp [bisect_right] at h
  | cons y ys ih =>
    intro h
    by_cases hp : y ≤ x
    · rw [bisect_cons, if_pos hp] at h ⊢
      rw [List.getD_cons_succ]
      exact ih (by simpa using h)
    · rw [bisect_cons, if_neg hp]
      rw [List.getD_cons_zero]
      omega

lemma bisect_lt_length (x : Nat) : ∀ a : List Nat, (∃ y ∈ a, x < y) →
    bisect_right a x < a.length := by
  intro a
  induction a with
  | nil =>
    rintro ⟨y, hy, _⟩
    simp at hy
  | cons z zs ih =>
    rintro ⟨y, hy, hxy⟩
    by_cases hp : z ≤ x
    · rw [bisect_cons, if_pos hp]
      simp only [List.length_cons]
      have hex : ∃ y ∈ zs, x < y := by
        rcases List.mem_cons.mp hy with rfl | hm
        · omega
        · exact ⟨y, hm, hxy⟩
      have := ih hex
      omega
    · rw [bisect_cons, if_neg hp]
      simp

lemma pairwise_getD_mono (a : List Nat)
    (hmono : List.Pairwise (fun x y => x ≤ y) a)
    {i j : Nat} (hij : i ≤ j) (hj : j < a.length) :
    a.getD i 0 ≤ a.getD j 0 := by
  rcases Nat.lt_or_ge i j with h | h
  · have hi : i < a.length := lt_trans h hj
    rw [List.getD_eq_getElem a 0 hi, List.getD_eq_getElem a 0 hj]
    have := List.pairwise_iff_get.mp hmono ⟨i, hi⟩ ⟨j, hj⟩ h
    simpa using this
  · have hq : i = j := by omega
    subst hq
    exact le_refl _

lemma getLast?_mem_nat : ∀ (a : List Nat) (y : Nat), a.getLast? = some y → y ∈ a := by
  intro a
  induction a with
  | nil => intro y h; simp at h
  | cons x xs ih =>
    intro y h
    cases xs with
    | nil =>
      simp only [List.getLast?_singleton, Option.some.injEq] at h
      simp [h]
    | cons z zs =>
      rw [List.getLast?_cons_cons] at h
      exact List.mem_cons_of_mem _ (ih y h)

/-- C5: for tx_num below tx_count, with tx_counts non-decreasing of length
db_height + 1 and last entry tx_count, and the shard holding tx_num existing,
fs_tx_hash succeeds with some hash and the right-bisected height h, which is
the unique index with TxCounts(h-1) at most tx_num (taking TxCounts(-1) as 0)
and tx_num below TxCounts(h). -/
theorem c5_fs_tx_hash_total_unique (tx_counts : List Nat) (db_height : Int)
    (shards : Nat → Option (List Nat)) (ssize : Nat) (tx_num tx_count : Nat)
    (f : List Nat)
    (hmono : List.Pairwise (fun x y => x ≤ y) tx_counts)
    (hlen : (tx_counts.length : Int) = db_height + 1)
    (hlast : tx_counts.getLast? = some tx_count)
    (htx : tx_num < tx_count)
    (hshard : shards (tx_num * 32 / ssize) = some f) :
    fs_tx_hash tx_counts db_height shards ssize tx_num =
      .ok (some ((f.drop (tx_num * 32 % ssize)).take 32),
        bisect_right tx_counts tx_num) ∧
    (bisect_right tx_counts tx_num = 0 ∨
      tx_counts.getD (bisect_right tx_counts tx_num - 1) 0 ≤ tx_num) ∧
    tx_num < tx_counts.getD (bisect_right tx_counts tx_num) 0 ∧
    (∀ h2, h2 < tx_counts.length →
      (h2 = 0 ∨ tx_counts.getD (h2 - 1) 0 ≤ tx_num) →
      tx_num < tx_counts.getD h2 0 →
      h2 = bisect_right tx_counts tx_num) := by
  have hmem : tx_count ∈ tx_counts := getLast?_mem_nat tx_counts tx_count hlast
  have hblt : bisect_right tx_counts tx_num < tx_counts.length :=
    bisect_lt_length tx_num tx_counts ⟨tx_count, hmem, htx⟩
  have hnotgt : ¬ ((bisect_right tx_counts tx_num : Int) > db_height) := by
    omega
  refine ⟨?_, ?_, ?_, ?_⟩
  · simp only [fs_tx_hash]
    rw [if_neg hnotgt, hshard]
  · by_cases hz : bisect_right tx_counts tx_num = 0
    · exact Or.inl hz
    · exact Or.inr (bisect_prev tx_num tx_counts _ (by omega))
  · exact bisect_here tx_num tx_counts hblt
  · intro h2 hh2 hfst hsnd
    by_contra hne
    rcases Nat.lt_or_ge h2 (bisect_right tx_counts tx_num) with hlt | hge
    · have := bisect_prev tx_num tx_counts h2 hlt
      omega
    · have hgt : bisect_right tx_counts tx_num < h2 := by omega
      rcases hfst with h0 | hprev
      · omega
      · have hmono2 : tx_counts.getD (bisect_right tx_counts tx_num) 0 ≤
            tx_counts.getD (h2 - 1) 0 :=
          pairwise_getD_mono tx_counts hmono (by omega) (by omega)
        have := bisect_here tx_num tx_counts hblt
        omega

/-- Witness for C5: tx_counts [1, 3] at db_height 1, tx_num 1 resolves at
height 1 and reads 32 bytes from shard 0. -/
theorem c5_fs_tx_hash_total_unique_witness :
    fs_tx_hash [1, 3] 1 (fun _ => some (List.replicate 64 7)) 16777216 1 =
      .ok (some (((List.replicate 64 7).drop (1 * 32 % 16777216)).take 32),
        bisect_right [1, 3] 1) :=
  (c5_fs_tx_hash_total_unique [1, 3] 1 (fun _ => some (List.replicate 64 7))
    16777216 1 3 (List.replicate 64 7) (by decide) (by decide) (by decide)
    (by decide) (by rfl)).1

/-- array with typecode I: frombytes decodes a value into 4-byte
little-endian unsigned integers (CPython 32-bit items on a little-endian
platform), raising ValueError when the byte length is not a multiple of the
item size. -/
def decodeUint32List : List Nat → Except PyExc (List Nat)
  | [] => .ok []
  | a :: b :: c :: d :: rest =>
    (decodeUint32List rest).map
      (fun l => (a + 256 * b + 65536 * c + 16777216 * d) :: l)
  | _ => .error .valueError

/-- DB._resolve_limit: None becomes -1 (no limit); a number passes through
(the source asserts a non-negative int, which a Nat input satisfies). -/
def resolve_limit : Option Nat → Int
  | none => -1
  | some n => n

/-- The inner loop of the get_history generator over the tx numbers of one
history entry: the limit is tested against zero before each yield, and
reaching zero returns from the whole generator (stopped = true); otherwise
fs_tx_hash is yielded and the limit decremented. -/
def historyInner (tx_counts : List Nat) (db_height : Int)
    (shards : Nat → Option (List Nat)) (ssize : Nat) :
    Int → List Nat → Except PyExc (List (Option (List Nat) × Nat) × Int × Bool)
  | lim, [] => .ok ([], lim, false)
  | lim, n :: ns =>
    if lim = 0 then .ok ([], lim, true)
    else do
      let r ← fs_tx_hash tx_counts db_height shards ssize n
      let (rest, lim2, stopped) ←
        historyInner tx_counts db_height shards ssize (lim - 1) ns
      .ok (r :: rest, lim2, stopped)

/-- The outer loop of the get_history generator over the history entries of
one address in key order: each entry value is decoded before its numbers are
walked, and the generator ends as soon as the inner loop reports the limit
was reached. -/
def historyOuter (tx_counts : List Nat) (db_height : Int)
    (shards : Nat → Option (List Nat)) (ssize : Nat) :
    Int → List (List Nat × List Nat) →
      Except PyExc (List (Option (List Nat) × Nat))
  | _, [] => .ok []
  | lim, kv :: rest => do
    let nums ← decodeUint32List kv.2
    let (rs, lim2, stopped) ←
      historyInner tx_counts db_height shards ssize lim nums
    if stopped then .ok rs
    else do
      let more ← historyOuter tx_counts db_height shards ssize lim2 rest
      .ok (rs ++ more)

/-- DB.get_history: iterate the history entries under H + hash168 in key
order, resolving each stored tx number via fs_tx_hash, under the generator
limit semantics. -/
def get_history (store : Store) (tx_counts : List Nat) (db_height : Int)
    (shards : Nat → Option (List Nat)) (ssize : Nat) (hash168 : List Nat)
    (limit : Option Nat) : Except PyExc (List (Option (List Nat) × Nat)) :=
  historyOuter tx_counts db_height shards ssize (resolve_limit limit)
    (store.filter (fun kv => (72 :: hash168).isPrefixOf kv.1))

lemma historyInner_neg (tx_counts : List Nat) (db_height : Int)
    (shards : Nat → Option (List Nat)) (ssize : Nat) :
    ∀ (ns : List Nat) (lim : Int), lim < 0 →
    (∀ n ∈ ns, db_height < (bisect_right tx_counts n : Int)) →
    historyInner tx_counts db_height shards ssize lim ns =
      .ok (ns.map (fun n => (none, bisect_right tx_counts n)),
        lim - ns.length, false) := by
  intro ns
  induction ns with
  | nil =>
    intro lim hneg _
    simp [historyInner]
  | cons n ns ih =>
    intro lim hneg hall
    have h1 : fs_tx_hash tx_counts db_height shards ssize n =
        .ok (none, bisect_right tx_counts n) := by
      simp only [fs_tx_hash]
      rw [if_pos (hall n (by simp))]
    simp only [historyInner, if_neg (show ¬ lim = 0 by omega)]
    rw [h1, ih (lim - 1) (by omega) (fun m hm => hall m (by simp [hm]))]
    simp only [Except.instMonad, Except.bind, List.map_cons, List.length_cons,
      Except.ok.injEq, Prod.mk.injEq, true_and]
    constructor
    · push_cast
      ring
    · trivial

lemma historyOuter_all_none (tx_counts : List Nat) (db_height : Int)
    (shards : Nat → Option (List Nat)) (ssize : Nat) :
    ∀ (entries : List (List Nat × List Nat)) (lim : Int), lim < 0 →
    (∀ kv ∈ entries, ∃ ns, decodeUint32List kv.2 = .ok ns ∧
      ∀ n ∈ ns, db_height < (bisect_right tx_counts n : Int)) →
    ∃ l, historyOuter tx_counts db_height shards ssize lim entries = .ok l ∧
      ∀ e ∈ l, e.1 = none := by
  intro entries
  induction entries with
  | nil =>
    intro lim _ _
    exact ⟨[], rfl, by simp⟩
  | cons kv rest ih =>
    intro lim hneg hall
    obtain ⟨ns, hdec, hns⟩ := hall kv (by simp)
    have hinner := historyInner_neg tx_counts db_height shards ssize ns lim
      hneg hns
    obtain ⟨l2, hl2, hmem⟩ := ih (lim - ns.length) (by omega)
      (fun kv2 hm => hall kv2 (by simp [hm]))
    refine ⟨ns.map (fun n => (none, bisect_right tx_counts n)) ++ l2, ?_, ?_⟩
    · simp only [historyOuter]
      simp [hdec, hinner, hl2, Except.instMonad, Except.bind]
    · intro e he
      rcases List.mem_append.mp he with hm | hm
      · obtain ⟨m, _, hq⟩ := List.mem_map.mp hm
        rw [← hq]
      · exact hmem e hm

/-- C9: a tx number whose bisected height exceeds db_height makes fs_tx_hash
return (None, height) without error and without touching any shard file, and
get_history on history entries made only of such tx numbers succeeds,
yielding placeholder entries with no hash instead of failing. -/
theorem c9_fs_tx_hash_past_height (tx_counts : List Nat) (db_height : Int)
    (shards : Nat → Option (List Nat)) (ssize : Nat) :
    (∀ tx_num : Nat, db_height < (bisect_right tx_counts tx_num : Int) →
      fs_tx_hash tx_counts db_height shards ssize tx_num =
        .ok (none, bisect_right tx_counts tx_num)) ∧
    (∀ (store : Store) (hash168 : List Nat),
      (∀ kv ∈ store, (72 :: hash168).isPrefixOf kv.1 = true →
        ∃ ns, decodeUint32List kv.2 = .ok ns ∧
          ∀ n ∈ ns, db_height < (bisect_right tx_counts n : Int)) →
      ∃ l, get_history store tx_counts db_height shards ssize hash168 none =
          .ok l ∧
        ∀ e ∈ l, e.1 = none) := by
  constructor
  · intro tx_num h
    simp only [fs_tx_hash]
    rw [if_pos h]
  · intro store hash168 hall
    exact historyOuter_all_none tx_counts db_height shards ssize _ (-1)
      (by omega)
      (fun kv hkv =>
        hall kv (List.mem_filter.mp hkv).1 (List.mem_filter.mp hkv).2)

/-- Witness for C9: with one block of one transaction on disk (db_height 0,
tx_counts [1]), tx number 5 bisects to height 1 past the disk and resolves to
a placeholder even though no shard file exists at all. -/
theorem c9_fs_tx_hash_past_height_witness :
    fs_tx_hash [1] 0 (fun _ => none) 16777216 5 =
      .ok (none, bisect_right [1] 5) :=
  (c9_fs_tx_hash_past_height [1] 0 (fun _ => none) 16777216).1 5 (by decide)

/-- The candidate scan loop of DB.db_hash168 over the owner-lookup entries
under the truncated-hash + index key head: assert the stored fingerprint is
21 bytes, unpack the 4-byte little-endian tx number key suffix, resolve its
full hash via fs_tx_hash and return on the first exact match; (None, None)
when the candidates are exhausted. -/
def hash168Go (tx_counts : List Nat) (db_height : Int)
    (shards : Nat → Option (List Nat)) (ssize : Nat) (tx_hash : List Nat) :
    List (List Nat × List Nat) →
      Except PyExc (Option (List Nat) × Option (List Nat))
  | [] => .ok (none, none)
  | kv :: rest =>
    if kv.2.length ≠ 21 then .error .assertionError
    else do
      let (hsh, _) ← fs_tx_hash tx_counts db_height shards ssize
        (leVal (lastBytes 4 kv.1))
      if hsh == some tx_hash then .ok (some kv.2, some (lastBytes 4 kv.1))
      else hash168Go tx_counts db_height shards ssize tx_hash rest

/-- DB.db_hash168: scan the owner-lookup table under the key head
h (0x68 = 104) + tx_hash[:4] + idx_packed. -/
def db_hash168 (store : Store) (tx_counts : List Nat) (db_height : Int)
    (shards : Nat → Option (List Nat)) (ssize : Nat) (tx_hash : List Nat)
    (idx_packed : List Nat) :
    Except PyExc (Option (List Nat) × Option (List Nat)) :=
  hash168Go tx_counts db_height shards ssize tx_hash
    (store.filter (fun kv =>
      (104 :: (tx_hash.take 4 ++ idx_packed)).isPrefixOf kv.1))

/-- Whether an owner-lookup entry is the one the scan is looking for: its
key suffix tx number resolves to exactly the requested full hash. -/
def ownerMatches (tx_counts : List Nat) (db_height : Int)
    (shards : Nat → Option (List Nat)) (ssize : Nat) (tx_hash : List Nat)
    (kv : List Nat × List Nat) : Bool :=
  match fs_tx_hash tx_counts db_height shards ssize
      (leVal (lastBytes 4 kv.1)) with
  | .ok (hsh, _) => hsh == some tx_hash
  | .error _ => false

/-- DB.db_utxo_lookup: resolve the owner via db_hash168 and then the value
record under u (0x75 = 117) + hash168 + idx_packed + tx_num; a falsy owner
raises MissingUTXOError, a missing or empty value record raises the
one-table-only DBError, and on success the 8-byte value decodes as an
unsigned 64-bit little-endian integer.  struct.pack of the index raises
struct.error when the index does not fit 16 bits, and concatenating a None
tx number would raise TypeError (unreachable, as db_hash168 returns both
components together). -/
def db_utxo_lookup (store : Store) (tx_counts : List Nat) (db_height : Int)
    (shards : Nat → Option (List Nat)) (ssize : Nat) (tx_hash : List Nat)
    (tx_idx : Nat) : Except PyExc (List Nat × Nat) :=
  if 65536 ≤ tx_idx then .error .structError
  else do
    let idx_packed := packLE16 tx_idx
    let (oh, ot) ←
      db_hash168 store tx_counts db_height shards ssize tx_hash idx_packed
    match oh with
    | none => .error .missingUTXO
    | some h168 =>
      if h168 = [] then .error .missingUTXO
      else
        match ot with
        | none => .error .typeError
        | some tnp =>
          match storeGet store (117 :: (h168 ++ idx_packed ++ tnp)) with
          | none => .error (.dbError "UTXO in one table only")
          | some v =>
            if v = [] then .error (.dbError "UTXO in one table only")
            else if v.length ≠ 8 then .error .structError
            else .ok (h168, leVal v)

/-- DB.get_utxo_hash168: only an index in unsigned 16-bit range leads to a
db_hash168 scan; any other index returns None with no database access. -/
def get_utxo_hash168 (store : Store) (tx_counts : List Nat) (db_height : Int)
    (shards : Nat → Option (List Nat)) (ssize : Nat) (tx_hash : List Nat)
    (index : Int) : Except PyExc (Option (List Nat)) :=
  if 0 ≤ index ∧ index ≤ 65535 then do
    let (h168, _) ← db_hash168 store tx_counts db_height shards ssize tx_hash
      (packLE16 index.toNat)
    .ok h168
  else
    .ok none

lemma hash168Go_shape (tx_counts : List Nat) (db_height : Int)
    (shards : Nat → Option (List Nat)) (ssize : Nat) (tx_hash : List Nat) :
    ∀ (l : List (List Nat × List Nat)) r,
    hash168Go tx_counts db_height shards ssize tx_hash l = .ok r →
    r = (none, none) ∨
      ∃ h168 tnp, r = (some h168, some tnp) ∧ h168.length = 21 := by
  intro l
  induction l with
  | nil =>
    intro r h
    left
    injection h with h2
    exact h2.symm
  | cons kv rest ih =>
    intro r h
    simp only [hash168Go] at h
    split at h
    · exact Except.noConfusion h
    · rename_i hlen
      cases hfs : fs_tx_hash tx_counts db_height shards ssize
          (leVal (lastBytes 4 kv.1)) with
      | error e =>
        rw [hfs] at h
        simp [Except.instMonad, Except.bind] at h
      | ok p =>
        rw [hfs] at h
        simp only [Except.instMonad, Except.bind] at h
        obtain ⟨hsh, ht⟩ := p
        by_cases hm : (hsh == some tx_hash) = true
        · rw [if_pos hm] at h
          injection h with h2
          right
          exact ⟨kv.2, lastBytes 4 kv.1, h2.symm, by omega⟩
        · rw [if_neg hm] at h
          exact ih r h

lemma hash168Go_error (tx_counts : List Nat) (db_height : Int)
    (shards : Nat → Option (List Nat)) (ssize : Nat) (tx_hash : List Nat) :
    ∀ (l : List (List Nat × List Nat)) e,
    hash168Go tx_counts db_height shards ssize tx_hash l = .error e →
    e = .assertionError ∨ e = .fileNotFound := by
  intro l
  induction l with
  | nil =>
    intro e h
    exact Except.noConfusion h
  | cons kv rest ih =>
    intro e h
    simp only [hash168Go] at h
    split at h
    · injection h with h2
      exact Or.inl h2.symm
    · cases hfs : fs_tx_hash tx_counts db_height shards ssize
          (leVal (lastBytes 4 kv.1)) with
      | error e2 =>
        rw [hfs] at h
        simp only [Except.instMonad, Except.bind] at h
        injection h with h2
        right
        rw [← h2]
        revert hfs
        simp only [fs_tx_hash]
        split
        · intro hq
          exact Except.noConfusion hq
        · split
          · intro hq
            injection hq with hq2
            exact hq2.symm
          · intro hq
            exact Except.noConfusion hq
      | ok p =>
        rw [hfs] at h
        simp only [Except.instMonad, Except.bind] at h
        obtain ⟨hsh, ht⟩ := p
        by_cases hm : (hsh == some tx_hash) = true
        · rw [if_pos hm] at h
          exact Except.noConfusion h
        · rw [if_neg hm] at h
          exact ih e h

lemma hash168Go_find (tx_counts : List Nat) (db_height : Int)
    (shards : Nat → Option (List Nat)) (ssize : Nat) (tx_hash : List Nat) :
    ∀ l : List (List Nat × List Nat),
    (∀ kv ∈ l, kv.2.length = 21) →
    (∀ kv ∈ l, ∃ r, fs_tx_hash tx_counts db_height shards ssize
      (leVal (lastBytes 4 kv.1)) = .ok r) →
    hash168Go tx_counts db_height shards ssize tx_hash l =
      (match l.find?
          (ownerMatches tx_counts db_height shards ssize tx_hash) with
        | some kv => .ok (some kv.2, some (lastBytes 4 kv.1))
        | none => .ok (none, none)) := by
  intro l
  induction l with
  | nil =>
    intro _ _
    simp [hash168Go]
  | cons kv rest ih =>
    intro hwf hres
    obtain ⟨r, hr⟩ := hres kv (by simp)
    obtain ⟨hsh, ht⟩ := r
    simp only [hash168Go]
    rw [if_neg (by simp [hwf kv (by simp)])]
    rw [hr]
    simp only [Except.instMonad, Except.bind]
    by_cases hm : (hsh == some tx_hash) = true
    · have hOM : ownerMatches tx_counts db_height shards ssize tx_hash kv
          = true := by
        simp [ownerMatches, hr, hm]
      rw [if_pos hm, List.find?_cons_of_pos _ hOM]
    · have hOM : ownerMatches tx_counts db_height shards ssize tx_hash kv
          = false := by
        simp only [ownerMatches, hr]
        simpa using hm
      rw [if_neg hm, List.find?_cons_of_neg _ (by simp [hOM])]
      exact ih (fun kv2 h2 => hwf kv2 (by simp [h2]))
        (fun kv2 h2 => hres kv2 (by simp [h2]))

/-- C8: under the well-formedness of the owner table (21-byte fingerprints,
resolvable candidate tx numbers), db_hash168 returns exactly the first
candidate in key order whose resolved full hash equals tx_hash, and
(None, None) when no candidate matches; whenever it returns an entry, that
entry comes from the candidate set and its full hash matches, so entries of
unrelated transactions merely sharing the truncated head are never
returned. -/
theorem c8_db_hash168_first_full_match (store : Store) (tx_counts : List Nat)
    (db_height : Int) (shards : Nat → Option (List Nat)) (ssize : Nat)
    (tx_hash idx_packed : List Nat)
    (hwf : ∀ kv ∈ store.filter (fun kv =>
        (104 :: (tx_hash.take 4 ++ idx_packed)).isPrefixOf kv.1),
      kv.2.length = 21)
    (hres : ∀ kv ∈ store.filter (fun kv =>
        (104 :: (tx_hash.take 4 ++ idx_packed)).isPrefixOf kv.1),
      ∃ r, fs_tx_hash tx_counts db_height shards ssize
        (leVal (lastBytes 4 kv.1)) = .ok r) :
    db_hash168 store tx_counts db_height shards ssize tx_hash idx_packed =
      (match (store.filter (fun kv =>
          (104 :: (tx_hash.take 4 ++ idx_packed)).isPrefixOf kv.1)).find?
          (ownerMatches tx_counts db_height shards ssize tx_hash) with
        | some kv => .ok (some kv.2, some (lastBytes 4 kv.1))
        | none => .ok (none, none)) ∧
    (∀ h168 tnp,
      db_hash168 store tx_counts db_height shards ssize tx_hash idx_packed =
        .ok (some h168, some tnp) →
      ∃ kv, kv ∈ store.filter (fun kv =>
          (104 :: (tx_hash.take 4 ++ idx_packed)).isPrefixOf kv.1) ∧
        kv.2 = h168 ∧ lastBytes 4 kv.1 = tnp ∧
        ownerMatches tx_counts db_height shards ssize tx_hash kv = true) := by
  have hmain := hash168Go_find tx_counts db_height shards ssize tx_hash
    (store.filter (fun kv =>
      (104 :: (tx_hash.take 4 ++ idx_packed)).isPrefixOf kv.1)) hwf hres
  constructor
  · exact hmain
  · intro h168 tnp hok
    unfold db_hash168 at hok
    rw [hmain] at hok
    cases hfind : (store.filter (fun kv =>
        (104 :: (tx_hash.take 4 ++ idx_packed)).isPrefixOf kv.1)).find?
        (ownerMatches tx_counts db_height shards ssize tx_hash) with
    | none =>
      rw [hfind] at hok
      simp at hok
    | some kv =>
      rw [hfind] at hok
      injection hok with h2
      rw [Prod.mk.injEq] at h2
      obtain ⟨ha, hb⟩ := h2
      refine ⟨kv, List.mem_of_find?_eq_some hfind, ?_, ?_,
        List.find?_some hfind⟩
      · injection ha with ha2
      · injection hb with hb2

/-- The transaction hash that both C8 witness candidates share a truncated
head with; it is the full hash of tx number 1 only. -/
def c8WHash : List Nat := List.replicate 32 1

/-- The C8 witness owner table: tx number 0 (an unrelated transaction whose
hash shares the first four bytes head only in the key) and tx number 1 (the
exact match), with distinct fingerprints. -/
def c8WStore : Store :=
  [(104 :: (c8WHash.take 4 ++ [0, 0] ++ [0, 0, 0, 0]), List.replicate 21 5),
   (104 :: (c8WHash.take 4 ++ [0, 0] ++ [1, 0, 0, 0]), List.replicate 21 6)]

/-- The C8 witness tx-hash shard: tx 0 has hash 32 x 9, tx 1 has hash
32 x 1. -/
def c8WShards : Nat → Option (List Nat) :=
  fun _ => some (List.replicate 32 9 ++ List.replicate 32 1)

/-- Witness for C8: on the concrete two-candidate table the scan result is
exactly the find-first-full-match characterization. -/
theorem c8_db_hash168_first_full_match_witness :
    db_hash168 c8WStore [2] 0 c8WShards 16777216 c8WHash [0, 0] =
      (match (c8WStore.filter (fun kv =>
          (104 :: (c8WHash.take 4 ++ [0, 0])).isPrefixOf kv.1)).find?
          (ownerMatches [2] 0 c8WShards 16777216 c8WHash) with
        | some kv => .ok (some kv.2, some (lastBytes 4 kv.1))
        | none => .ok (none, none)) :=
  (c8_db_hash168_first_full_match c8WStore [2] 0 c8WShards 16777216 c8WHash
    [0, 0] (by decide)
    (by
      intro kv hkv
      rw [show c8WStore.filter (fun kv =>
          (104 :: (c8WHash.take 4 ++ [0, 0])).isPrefixOf kv.1) = c8WStore
        from rfl] at hkv
      rcases List.mem_cons.mp hkv with rfl | hkv2
      · exact ⟨_, rfl⟩
      · rcases List.mem_cons.mp hkv2 with rfl | hkv3
        · exact ⟨_, rfl⟩
        · simp at hkv3)).1

/-- C7: for an index in 16-bit range, db_utxo_lookup raises MissingUTXOError
exactly when the owner lookup finds nothing; when the owner lookup succeeds
but the value record is missing or empty it raises the fatal one-table-only
DBError instead; and when both exist (8-byte value) it returns the owner
fingerprint with the value decoded as unsigned 64-bit little-endian. -/
theorem c7_db_utxo_lookup_error_asymmetry (store : Store)
    (tx_counts : List Nat) (db_height : Int)
    (shards : Nat → Option (List Nat)) (ssize : Nat) (tx_hash : List Nat)
    (tx_idx : Nat) (hidx : tx_idx < 65536) :
    ((db_utxo_lookup store tx_counts db_height shards ssize tx_hash tx_idx =
        .error .missingUTXO) ↔
      db_hash168 store tx_counts db_height shards ssize tx_hash
        (packLE16 tx_idx) = .ok (none, none)) ∧
    (∀ h168 tnp,
      db_hash168 store tx_counts db_height shards ssize tx_hash
        (packLE16 tx_idx) = .ok (some h168, some tnp) →
      ((storeGet store (117 :: (h168 ++ packLE16 tx_idx ++ tnp)) = none ∨
        storeGet store (117 :: (h168 ++ packLE16 tx_idx ++ tnp)) = some []) →
        db_utxo_lookup store tx_counts db_height shards ssize tx_hash tx_idx =
          .error (.dbError "UTXO in one table only")) ∧
      (∀ v, storeGet store (117 :: (h168 ++ packLE16 tx_idx ++ tnp)) = some v →
        v.length = 8 →
        db_utxo_lookup store tx_counts db_height shards ssize tx_hash tx_idx =
          .ok (h168, leVal v))) := by
  have hnot : ¬ (65536 ≤ tx_idx) := by omega
  cases hdb : db_hash168 store tx_counts db_height shards ssize tx_hash
      (packLE16 tx_idx) with
  | error e =>
    have he := hash168Go_error tx_counts db_height shards ssize tx_hash
      (store.filter (fun kv =>
        (104 :: (tx_hash.take 4 ++ packLE16 tx_idx)).isPrefixOf kv.1)) e hdb
    have hlook : db_utxo_lookup store tx_counts db_height shards ssize
        tx_hash tx_idx = .error e := by
      simp [db_utxo_lookup, hnot, hdb, Except.instMonad, Except.bind]
    constructor
    · rw [hlook]
      constructor
      · intro hq
        injection hq with hq2
        rcases he with rfl | rfl <;> simp at hq2
      · intro hq
        exact Except.noConfusion hq
    · intro h168 tnp hok
      exact Except.noConfusion hok
  | ok p =>
    rcases hash168Go_shape tx_counts db_height shards ssize tx_hash
        (store.filter (fun kv =>
          (104 :: (tx_hash.take 4 ++ packLE16 tx_idx)).isPrefixOf kv.1)) p hdb
      with h0 | ⟨h168, tnp, heq, hlen21⟩
    · subst h0
      have hlook : db_utxo_lookup store tx_counts db_height shards ssize
          tx_hash tx_idx = .error .missingUTXO := by
        simp [db_utxo_lookup, hnot, hdb, Except.instMonad, Except.bind]
      constructor
      · rw [hlook]
        exact ⟨fun _ => rfl, fun _ => rfl⟩
      · intro h168 tnp hok
        injection hok with hc2
        rw [Prod.mk.injEq] at hc2
        exact absurd hc2.1 (by simp)
    · subst heq
      have hne : ¬ (h168 = []) := by
        intro hq
        rw [hq] at hlen21
        simp at hlen21
      have hred : db_utxo_lookup store tx_counts db_height shards ssize
          tx_hash tx_idx =
          (match storeGet store (117 :: (h168 ++ packLE16 tx_idx ++ tnp)) with
           | none => .error (.dbError "UTXO in one table only")
           | some v =>
             if v = [] then .error (.dbError "UTXO in one table only")
             else if v.length ≠ 8 then .error .structError
             else .ok (h168, leVal v)) := by
        simp [db_utxo_lookup, hnot, hdb, hne, Except.instMonad, Except.bind]
      constructor
      · constructor
        · intro hq
          exfalso
          cases hget : storeGet store
              (117 :: (h168 ++ packLE16 tx_idx ++ tnp)) with
          | none =>
            rw [hred, hget] at hq
            injection hq with hq2
            exact PyExc.noConfusion hq2
          | some v =>
            by_cases hv0 : v = []
            · subst hv0
              rw [hred, hget] at hq
              simp at hq
            · by_cases hv8 : v.length ≠ 8
              · rw [hred, hget] at hq
                simp [hv0, hv8] at hq
              · rw [hred, hget] at hq
                simp [hv0, hv8] at hq
        · intro hq
          injection hq with hq2
          rw [Prod.mk.injEq] at hq2
          exact absurd hq2.1 (by simp)
      · intro h168b tnpb hok
        injection hok with hc2
        rw [Prod.mk.injEq] at hc2
        obtain ⟨ha, hb⟩ := hc2
        injection ha with ha2
        injection hb with hb2
        subst ha2
        subst hb2
        constructor
        · intro hcase
          rcases hcase with hg | hg
          · rw [hred, hg]
          · rw [hred, hg]
            rfl
        · intro v hv hv8
          have hvne : ¬ (v = []) := by
            intro hq
            rw [hq] at hv8
            simp at hv8
          rw [hred, hv]
          simp [hvne, hv8]

/-- The full transaction hash of the C7 witness UTXO. -/
def c7WHash : List Nat := List.replicate 32 7

/-- The owning fingerprint of the C7 witness UTXO. -/
def c7WOwner : List Nat := List.replicate 21 3

/-- The C7 witness store: the owner-lookup entry and the matching value
record of one UTXO at output index 5 of tx number 0, value 42. -/
def c7WStore : Store :=
  [(104 :: (c7WHash.take 4 ++ [5, 0] ++ [0, 0, 0, 0]), c7WOwner),
   (117 :: (c7WOwner ++ [5, 0] ++ [0, 0, 0, 0]), [42, 0, 0, 0, 0, 0, 0, 0])]

/-- Witness for C7: on the concrete store where both records exist, the
lookup returns the fingerprint and the decoded 64-bit value. -/
theorem c7_db_utxo_lookup_error_asymmetry_witness :
    db_utxo_lookup c7WStore [1] 0 (fun _ => some c7WHash) 16777216 c7WHash 5 =
      .ok (c7WOwner, 42) :=
  (((c7_db_utxo_lookup_error_asymmetry c7WStore [1] 0 (fun _ => some c7WHash)
      16777216 c7WHash 5 (by decide)).2 c7WOwner [0, 0, 0, 0] (by rfl)).2
    [42, 0, 0, 0, 0, 0, 0, 0] (by rfl) (by decide))

/-- C10: an index outside the unsigned 16-bit range makes get_utxo_hash168
return None, and the result does not depend on the store at all (no owner
scan is performed). -/
theorem c10_get_utxo_hash168_index_guard (store store2 : Store)
    (tx_counts : List Nat) (db_height : Int)
    (shards : Nat → Option (List Nat)) (ssize : Nat) (tx_hash : List Nat)
    (index : Int) (hout : index < 0 ∨ 65535 < index) :
    get_utxo_hash168 store tx_counts db_height shards ssize tx_hash index =
      .ok none ∧
    get_utxo_hash168 store tx_counts db_height shards ssize tx_hash index =
      get_utxo_hash168 store2 tx_counts db_height shards ssize tx_hash
        index := by
  have hcond : ¬ (0 ≤ index ∧ index ≤ 65535) := by omega
  constructor <;> simp [get_utxo_hash168, hcond]

/-- Witness for C10: index 70000 on a non-empty store returns None and
equals the lookup on a different store. -/
theorem c10_get_utxo_hash168_index_guard_witness :
    get_utxo_hash168 c7WStore [1] 0 (fun _ => some c7WHash) 16777216 c7WHash
      70000 = .ok none ∧
    get_utxo_hash168 c7WStore [1] 0 (fun _ => some c7WHash) 16777216 c7WHash
      70000 =
      get_utxo_hash168 [] [1] 0 (fun _ => some c7WHash) 16777216 c7WHash
        70000 :=
  c10_get_utxo_hash168_index_guard c7WStore [] [1] 0 (fun _ => some c7WHash)
    16777216 c7WHash 70000 (by decide)

/-- The full, well-formed state record used by the C4 witness. -/
def c4WDict : List (String × PyVal) :=
  [("genesis", .bytes [9]), ("height", .int 0), ("tx_count", .int 1),
   ("tip", .bytes [7]), ("flush_count", .int 2), ("utxo_flush_count", .int 2),
   ("wall_time", .int 5), ("first_sync", .bool false), ("db_version", .int 3)]

/-- Witness for C4: on the full record with matching genesis, recognized
version and equal flush counters, read_state succeeds and returns all nine
fields. -/
theorem c4_read_state_error_taxonomy_witness :
    read_state (PyVal.bytes [9]) (some c4WDict) =
      .ok ⟨.int 3, .int 0, .int 1, .bytes [7], .int 2, .int 2, .int 5,
           .bool false⟩ :=
  ((c4_read_state_error_taxonomy (PyVal.bytes [9]) c4WDict).2.2.2.2.2.2
    (.int 3) (.bytes [9]) (.int 0) (.int 1) (.bytes [7]) (.int 2) (.int 2)
    (.int 5) (.bool false) (by rfl) (by decide) (by rfl) (by decide) (by rfl)
    (by rfl) (by rfl) (by rfl) (by rfl) (by rfl) (by rfl)).2 (by rfl)

end PandaDB
